import Mathlib

/-!
Shallow embedding of the kenko health checker (Go).

The embedded functions mirror the source files:
* `check` embeds `(*Checker).check` (internal/monitor/monitor.go, identical
  copies in the package-main and redis variants): one HTTP GET probe whose
  three exit paths are request-construction failure, request-execution
  failure, and a received response classified by status code.
* `checkAll` embeds `(*Checker).checkAll`: one cycle writing one `Result`
  per target into the result map.
* `storeResult` and `checkAllMirror` embed the redis variant's
  `storeResult` and `checkAll` (write-through to the persistent mirror).
* `Results` embeds the redis variant's `(*Checker).Results` (read the
  mirror, fall back to the in-memory map).
* `loopSteps` / `Run` embed `(*Checker).Run`'s select loop over the
  cancellation signal and ticker events.
* `nextTickAfter` / `schedAux` / `runSchedule` embed the timing of that
  loop: `checkAll` is invoked synchronously, the ticker fires at wall-clock
  multiples of the interval measured from ticker creation, and the ticker
  channel buffers at most one tick (later ticks are dropped).

The outside world (HTTP transport, JSON codec, redis) is passed in as
oracle parameters: an `HttpOutcome` per probe, an encoder
`Result → Option String`, a decoder `String → Option Result`, and a
success flag per mirror write.  Wall-clock readings are `Nat` parameters.
Go struct literals that omit `StatusCode` are modelled with `none`.
-/

namespace Kenko

/-- A configured target, from `config.Target` (`{name, url}`). -/
structure Target where
  Name : String
  URL : String
deriving DecidableEq

/-- Health status, from the Go `Status` string constants. -/
inductive Status where
  | healthy
  | unhealthy
deriving DecidableEq

/-- The outcome `Result` of one probe, from the Go `Result` struct.
`StatusCode := none` models the Go struct literals that omit the field. -/
structure Result where
  Target : String
  URL : String
  Status : Status
  StatusCode : Option Nat
  Latency : Nat
  Error : String
  CheckedAt : Nat
deriving DecidableEq

/-- Oracle for the two fallible HTTP steps of `check`:
`http.NewRequestWithContext` may fail (`buildErr`), `client.Do` may fail
(timeout, DNS, refusal, cancellation: `execErr`), or a response with a
status code is received. -/
inductive HttpOutcome where
  | buildErr (msg : String)
  | execErr (msg : String)
  | response (code : Nat)
deriving DecidableEq

/-- An outcome on which no status code was obtained (either fallible HTTP
step failed). -/
def HttpOutcome.isFailure : HttpOutcome → Bool
  | .buildErr _ => true
  | .execErr _ => true
  | .response _ => false

/-- Embeds `(*Checker).check`: the three return paths of the Go function,
with the elapsed latency and completion clock reading passed in. -/
def check (target : Target) (outcome : HttpOutcome) (elapsed tnow : Nat) : Result :=
  match outcome with
  | .buildErr msg =>
      { Target := target.Name
        URL := target.URL
        Status := .unhealthy
        StatusCode := none
        Latency := elapsed
        Error := "bad request: " ++ msg
        CheckedAt := tnow }
  | .execErr msg =>
      { Target := target.Name
        URL := target.URL
        Status := .unhealthy
        StatusCode := none
        Latency := elapsed
        Error := "request failed: " ++ msg
        CheckedAt := tnow }
  | .response code =>
      { Target := target.Name
        URL := target.URL
        Status := if 400 ≤ code then .unhealthy else .healthy
        StatusCode := some code
        Latency := elapsed
        Error := ""
        CheckedAt := tnow }

theorem string_append_ne_empty (s : String) (msg : String) (h : s.length ≠ 0) :
    s ++ msg ≠ "" := by
  intro hEq
  have hLen : (s ++ msg).length = 0 := by rw [hEq]; rfl
  rw [String.length_append] at hLen
  omega

/-- C1: a probe's status is Healthy exactly when a response was received
with a status code below 400; a response with code at least 400 yields
Unhealthy with that code recorded. -/
theorem check_healthy_iff_code_lt_400 (target : Target) (o : HttpOutcome)
    (elapsed tnow : Nat) :
    ((check target o elapsed tnow).Status = .healthy ↔
      ∃ code, o = .response code ∧ code < 400) ∧
    (∀ code, o = .response code → 400 ≤ code →
      (check target o elapsed tnow).Status = .unhealthy ∧
      (check target o elapsed tnow).StatusCode = some code) := by
  constructor
  · cases o with
    | buildErr msg => simp [check]
    | execErr msg => simp [check]
    | response code =>
        by_cases h : 400 ≤ code
        · simp [check, h]
        · simp [check, h]
          omega
  · intro code hco hge
    subst hco
    simp [check, hge]

/-- C1 witness at a concrete 500 response. -/
theorem check_healthy_iff_code_lt_400_witness :
    (check ⟨"t", "u"⟩ (.response 500) 0 0).Status = .unhealthy ∧
    (check ⟨"t", "u"⟩ (.response 500) 0 0).StatusCode = some 500 :=
  (check_healthy_iff_code_lt_400 ⟨"t", "u"⟩ (.response 500) 0 0).2 500 rfl (by decide)

/-- C2: the probe is total — every outcome, including both failure modes,
yields a `Result`, and a failure outcome is encoded in the result's fields
(Unhealthy status and a non-empty error string) rather than propagated. -/
theorem check_total_encodes_failures (target : Target) (o : HttpOutcome)
    (elapsed tnow : Nat) :
    ∃ r : Result, check target o elapsed tnow = r ∧
      (o.isFailure = true →
        r.Status = .unhealthy ∧ r.Error ≠ "") := by
  refine ⟨check target o elapsed tnow, rfl, ?_⟩
  intro hf
  cases o with
  | buildErr msg =>
      exact ⟨rfl, string_append_ne_empty "bad request: " msg (by decide)⟩
  | execErr msg =>
      exact ⟨rfl, string_append_ne_empty "request failed: " msg (by decide)⟩
  | response code => simp [HttpOutcome.isFailure] at hf

/-- C2 witness at a concrete execution failure. -/
theorem check_total_encodes_failures_witness :
    ∃ r : Result, check ⟨"t", "u"⟩ (.execErr "dns") 0 0 = r ∧
      ((HttpOutcome.execErr "dns").isFailure = true →
        r.Status = .unhealthy ∧ r.Error ≠ "") :=
  check_total_encodes_failures ⟨"t", "u"⟩ (.execErr "dns") 0 0

/-- C3: the error field is non-empty exactly on the failure paths, which
leave the status code unset; a received response records its code and
leaves the error empty. -/
theorem check_error_iff_failure (target : Target) (o : HttpOutcome)
    (elapsed tnow : Nat) :
    ((check target o elapsed tnow).Error ≠ "" ↔ o.isFailure = true) ∧
    (o.isFailure = true → (check target o elapsed tnow).StatusCode = none) ∧
    (∀ code, o = .response code →
      (check target o elapsed tnow).StatusCode = some code ∧
      (check target o elapsed tnow).Error = "") := by
  refine ⟨?_, ?_, ?_⟩
  · cases o with
    | buildErr msg =>
        simp [check, HttpOutcome.isFailure]
        exact string_append_ne_empty "bad request: " msg (by decide)
    | execErr msg =>
        simp [check, HttpOutcome.isFailure]
        exact string_append_ne_empty "request failed: " msg (by decide)
    | response code => simp [check, HttpOutcome.isFailure]
  · intro hf
    cases o with
    | buildErr msg => rfl
    | execErr msg => rfl
    | response code => simp [HttpOutcome.isFailure] at hf
  · intro code hco
    subst hco
    exact ⟨rfl, rfl⟩

/-- C3 witness at a concrete malformed-URL failure and a concrete 500
response. -/
theorem check_error_iff_failure_witness :
    (check ⟨"t", ":bad"⟩ (.buildErr "parse") 0 0).StatusCode = none ∧
    (check ⟨"t", "u"⟩ (.response 500) 0 0).StatusCode = some 500 :=
  ⟨(check_error_iff_failure ⟨"t", ":bad"⟩ (.buildErr "parse") 0 0).2.1 rfl,
   ((check_error_iff_failure ⟨"t", "u"⟩ (.response 500) 0 0).2.2 500 rfl).1⟩

/-- C9: every return path of `check` echoes the probed target's name and
URL and stamps the completion time. -/
theorem check_echoes_target (target : Target) (o : HttpOutcome)
    (elapsed tnow : Nat) :
    (check target o elapsed tnow).Target = target.Name ∧
    (check target o elapsed tnow).URL = target.URL ∧
    (check target o elapsed tnow).CheckedAt = tnow := by
  cases o <;> exact ⟨rfl, rfl, rfl⟩

/-! ### The result map

Go's `map[string]V` with `m[k] = v` assignment and `m[k]` lookup is
embedded as an association list with at most one binding per key
(`mapSet` overwrites in place). -/

/-- Map assignment `m[k] = v`. -/
def mapSet {α : Type} (m : List (String × α)) (k : String) (v : α) :
    List (String × α) :=
  match m with
  | [] => [(k, v)]
  | (k2, v2) :: rest => if k2 = k then (k, v) :: rest else (k2, v2) :: mapSet rest k v

/-- Map lookup `m[k]`. -/
def mapGet {α : Type} (m : List (String × α)) (k : String) : Option α :=
  match m with
  | [] => none
  | (k2, v2) :: rest => if k2 = k then some v2 else mapGet rest k

theorem mapGet_mapSet {α : Type} (m : List (String × α)) (k k2 : String) (v : α) :
    mapGet (mapSet m k v) k2 = if k = k2 then some v else mapGet m k2 := by
  induction m with
  | nil => simp [mapSet, mapGet]
  | cons p rest ih =>
      obtain ⟨k3, v3⟩ := p
      by_cases h3 : k3 = k
      · subst h3
        by_cases h2 : k3 = k2 <;> simp [mapSet, mapGet, h2]
      · by_cases h2 : k3 = k2
        · subst h2
          have hk2 : ¬k = k3 := fun hEq => h3 hEq.symm
          simp [mapSet, mapGet, h3, hk2]
        · simp [mapSet, mapGet, h3, h2, ih]

theorem isSome_mapGet_mapSet {α : Type} (m : List (String × α)) (k k2 : String)
    (v : α) :
    (mapGet (mapSet m k v) k2).isSome = true ↔
      k = k2 ∨ (mapGet m k2).isSome = true := by
  rw [mapGet_mapSet]
  by_cases h : k = k2 <;> simp [h]

/-- The in-memory result store: target name to latest `Result`. -/
def Store := List (String × Result)

/-- One cycle's environment: the HTTP outcome and clock readings each
target's probe observes during that cycle. -/
structure CycleEnv where
  world : Target → HttpOutcome
  elapsed : Target → Nat
  tnow : Target → Nat

/-- The `Result` a given cycle produces for a target
(`result := c.check(ctx, t)`). -/
def cycleResult (env : CycleEnv) (t : Target) : Result :=
  check t (env.world t) (env.elapsed t) (env.tnow t)

/-- Embeds `(*Checker).checkAll` (memory-only variant): every target's
probe result is written to the result map under the target's name; the
cycle returns only once all writes have happened (`wg.Wait`).  The
per-target writes commute for distinct names, so list order stands in for
the arbitrary goroutine interleaving. -/
def checkAll (targets : List Target) (env : CycleEnv) (store : Store) : Store :=
  targets.foldl (fun s t => mapSet s t.Name (cycleResult env t)) store

theorem mapGet_checkAll_not_mem (targets : List Target) (env : CycleEnv)
    (s : Store) (k : String) (hk : k ∉ targets.map Target.Name) :
    mapGet (checkAll targets env s) k = mapGet s k := by
  induction targets generalizing s with
  | nil => rfl
  | cons t rest ih =>
      simp only [List.map_cons, List.mem_cons, not_or] at hk
      show mapGet (checkAll rest env (mapSet s t.Name (cycleResult env t))) k = _
      rw [ih _ hk.2, mapGet_mapSet, if_neg (fun hEq => hk.1 hEq.symm)]

theorem mapGet_checkAll_mem (targets : List Target) (env : CycleEnv)
    (s : Store) (t : Target) (ht : t ∈ targets)
    (hn : (targets.map Target.Name).Nodup) :
    mapGet (checkAll targets env s) t.Name = some (cycleResult env t) := by
  induction targets generalizing s with
  | nil => cases ht
  | cons t0 rest ih =>
      simp only [List.map_cons, List.nodup_cons] at hn
      rcases List.mem_cons.mp ht with h | h
      · subst h
        show mapGet (checkAll rest env (mapSet s t.Name (cycleResult env t))) t.Name = _
        rw [mapGet_checkAll_not_mem rest env _ t.Name hn.1, mapGet_mapSet, if_pos rfl]
      · exact ih (mapSet s t0.Name (cycleResult env t0)) h hn.2

theorem isSome_mapGet_checkAll (targets : List Target) (env : CycleEnv)
    (s : Store) (k : String) :
    (mapGet (checkAll targets env s) k).isSome = true ↔
      (mapGet s k).isSome = true ∨ k ∈ targets.map Target.Name := by
  induction targets generalizing s with
  | nil => simp [checkAll]
  | cons t rest ih =>
      show (mapGet (checkAll rest env (mapSet s t.Name (cycleResult env t))) k).isSome = true ↔ _
      rw [ih]
      rw [isSome_mapGet_mapSet]
      simp only [List.map_cons, List.mem_cons]
      constructor
      · rintro (⟨h | h⟩ | h)
        · exact Or.inr (Or.inl h.symm)
        · exact Or.inl h
        · exact Or.inr (Or.inr h)
      · rintro (h | h | h)
        · exact Or.inl (Or.inr h)
        · exact Or.inl (Or.inl h.symm)
        · exact Or.inr h

/-- N consecutive completed cycles over an unchanged target list, one
`CycleEnv` per cycle, starting from a given store. -/
def runCyclesStore (targets : List Target) (envs : List CycleEnv)
    (store : Store) : Store :=
  envs.foldl (fun s env => checkAll targets env s) store

theorem mapGet_runCyclesStore_last (targets : List Target)
    (envs : List CycleEnv) (h : envs ≠ [])
    (hn : (targets.map Target.Name).Nodup) (s : Store) (t : Target)
    (ht : t ∈ targets) :
    mapGet (runCyclesStore targets envs s) t.Name =
      some (cycleResult (envs.getLast h) t) := by
  obtain ⟨firsts, last, rfl⟩ : ∃ firsts last, envs = firsts ++ [last] := by
    rcases List.eq_nil_or_concat envs with h0 | ⟨firsts, last, h0⟩
    · exact absurd h0 h
    · exact ⟨firsts, last, by simpa [List.concat_eq_append] using h0⟩
  have hfold : runCyclesStore targets (firsts ++ [last]) s =
      checkAll targets last (runCyclesStore targets firsts s) := by
    simp [runCyclesStore]
  have hlast : (firsts ++ [last]).getLast h = last := by
    simp
  rw [hfold, hlast, mapGet_checkAll_mem targets last (runCyclesStore targets firsts s) t ht hn]

theorem isSome_mapGet_runCyclesStore (targets : List Target)
    (envs : List CycleEnv) (s : Store) (k : String) :
    (mapGet (runCyclesStore targets envs s) k).isSome = true ↔
      (mapGet s k).isSome = true ∨
        (envs ≠ [] ∧ k ∈ targets.map Target.Name) := by
  induction envs generalizing s with
  | nil => simp [runCyclesStore]
  | cons env rest ih =>
      show (mapGet (runCyclesStore targets rest (checkAll targets env s)) k).isSome = true ↔ _
      rw [ih, isSome_mapGet_checkAll]
      constructor
      · rintro ((h | h) | ⟨-, h⟩)
        · exact Or.inl h
        · exact Or.inr ⟨by simp, h⟩
        · exact Or.inr ⟨by simp, h⟩
      · rintro (h | ⟨-, h⟩)
        · exact Or.inl (Or.inl h)
        · exact Or.inl (Or.inr h)

/-- C8: starting from the empty store, after at least one completed cycle
over a target list with unique non-empty names, the store's keys are
exactly the configured target names, and each name holds the most recent
cycle's `Result` for that target. -/
theorem snapshot_exact_after_cycles (targets : List Target)
    (envs : List CycleEnv) (h : envs ≠ [])
    (hn : (targets.map Target.Name).Nodup)
    (hne : ∀ t ∈ targets, t.Name ≠ "") :
    (∀ k, (mapGet (runCyclesStore targets envs []) k).isSome = true ↔
      k ∈ targets.map Target.Name) ∧
    (∀ t ∈ targets, mapGet (runCyclesStore targets envs []) t.Name =
      some (cycleResult (envs.getLast h) t)) := by
  constructor
  · intro k
    rw [isSome_mapGet_runCyclesStore]
    simp [mapGet, h]
  · intro t ht
    exact mapGet_runCyclesStore_last targets envs h hn [] t ht

/-- C8 witness: two targets, two cycles; the snapshot holds exactly the two
names, each with the second cycle's result. -/
theorem snapshot_exact_after_cycles_witness :
    mapGet (runCyclesStore [⟨"a", "ua"⟩, ⟨"b", "ub"⟩]
        [⟨fun _ => .response 200, fun _ => 0, fun _ => 0⟩,
         ⟨fun _ => .response 503, fun _ => 1, fun _ => 7⟩] [])
      "a" = some (check ⟨"a", "ua"⟩ (.response 503) 1 7) := by
  have hmain := snapshot_exact_after_cycles [⟨"a", "ua"⟩, ⟨"b", "ub"⟩]
    [⟨fun _ => .response 200, fun _ => 0, fun _ => 0⟩,
     ⟨fun _ => .response 503, fun _ => 1, fun _ => 7⟩]
    (by simp) (by simp) (by simp)
  exact hmain.2 ⟨"a", "ua"⟩ (by simp)

/-! ### The scheduler loop (`Run`)

`Run` first calls `checkAll` unconditionally, then loops on a `select`
over the cancellation channel and the ticker channel.  The sequence of
events the `select` observes is a list: `tick` runs one more synchronous
`checkAll`, `cancel` returns from the loop. -/

/-- One observed event of `Run`'s `select`. -/
inductive LoopEvent where
  | cancel
  | tick
deriving DecidableEq

/-- The loop of `Run`: cycle `i` uses environment `envs i`; a `cancel`
event returns immediately, a `tick` event runs one full cycle and
continues. -/
def loopSteps (targets : List Target) (envs : Nat → CycleEnv) :
    List LoopEvent → Nat → Store → Store
  | [], _, s => s
  | .cancel :: _, _, s => s
  | .tick :: es, i, s => loopSteps targets envs es (i + 1) (checkAll targets (envs i) s)

/-- Embeds `(*Checker).Run`: one immediate cycle, then the event loop. -/
def Run (targets : List Target) (envs : Nat → CycleEnv)
    (events : List LoopEvent) (store : Store) : Store :=
  loopSteps targets envs events 1 (checkAll targets (envs 0) store)

/-- Number of cycles `Run` executes for a given event sequence: the
immediate initial cycle plus one per tick observed before the first
cancellation. -/
def cyclesRun : List LoopEvent → Nat
  | [] => 1
  | .cancel :: _ => 1
  | .tick :: es => cyclesRun es + 1

theorem loopSteps_append_cancel (targets : List Target) (envs : Nat → CycleEnv)
    (pre post : List LoopEvent) (hpre : LoopEvent.cancel ∉ pre) (i : Nat)
    (s : Store) :
    loopSteps targets envs (pre ++ .cancel :: post) i s =
      loopSteps targets envs pre i s := by
  induction pre generalizing i s with
  | nil => rfl
  | cons e pre2 ih =>
      simp only [List.mem_cons, not_or] at hpre
      cases e with
      | cancel => exact absurd rfl hpre.1
      | tick =>
          show loopSteps targets envs (pre2 ++ .cancel :: post) (i + 1) _ = _
          exact ih hpre.2 (i + 1) _

theorem isSome_mapGet_loopSteps (targets : List Target) (envs : Nat → CycleEnv)
    (events : List LoopEvent) (i : Nat) (s : Store) (k : String)
    (hs : (mapGet s k).isSome = true) :
    (mapGet (loopSteps targets envs events i s) k).isSome = true := by
  induction events generalizing i s with
  | nil => exact hs
  | cons e es ih =>
      cases e with
      | cancel => exact hs
      | tick =>
          exact ih (i + 1) _ ((isSome_mapGet_checkAll targets (envs i) s k).mpr (Or.inl hs))

theorem cyclesRun_append_cancel (pre post : List LoopEvent)
    (hpre : LoopEvent.cancel ∉ pre) :
    cyclesRun (pre ++ .cancel :: post) = 1 + pre.length := by
  induction pre with
  | nil => rfl
  | cons e pre2 ih =>
      simp only [List.mem_cons, not_or] at hpre
      cases e with
      | cancel => exact absurd rfl hpre.1
      | tick =>
          show cyclesRun (pre2 ++ .cancel :: post) + 1 = 1 + (pre2.length + 1)
          rw [ih hpre.2]
          omega

/-- C6: once the cancellation signal is observed, no further cycle runs
(the events after it are irrelevant and exactly `1 + pre.length` cycles
execute), and every target of the final in-flight state has a `Result` in
the store — the cycle in flight completed its writes. -/
theorem Run_cancel_stops_cleanly (targets : List Target)
    (envs : Nat → CycleEnv) (pre post : List LoopEvent) (store : Store)
    (hpre : LoopEvent.cancel ∉ pre) :
    cyclesRun (pre ++ .cancel :: post) = 1 + pre.length ∧
    Run targets envs (pre ++ .cancel :: post) store =
      Run targets envs pre store ∧
    (∀ t ∈ targets,
      (mapGet (Run targets envs (pre ++ .cancel :: post) store) t.Name).isSome
        = true) := by
  refine ⟨cyclesRun_append_cancel pre post hpre, ?_, ?_⟩
  · exact loopSteps_append_cancel targets envs pre post hpre 1 _
  · intro t ht
    apply isSome_mapGet_loopSteps
    exact (isSome_mapGet_checkAll targets (envs 0) store t.Name).mpr
      (Or.inr (List.mem_map_of_mem Target.Name ht))

/-- C6 witness: one tick before cancellation, ticks after it ignored; the
single target is present in the final store. -/
theorem Run_cancel_stops_cleanly_witness :
    cyclesRun ([.tick] ++ .cancel :: [.tick, .tick]) = 1 + [LoopEvent.tick].length ∧
    Run [⟨"a", "u"⟩] (fun _ => ⟨fun _ => .response 200, fun _ => 0, fun _ => 0⟩)
        ([.tick] ++ .cancel :: [.tick, .tick]) [] =
      Run [⟨"a", "u"⟩] (fun _ => ⟨fun _ => .response 200, fun _ => 0, fun _ => 0⟩)
        [.tick] [] ∧
    (∀ t ∈ [(⟨"a", "u"⟩ : Target)],
      (mapGet (Run [⟨"a", "u"⟩]
        (fun _ => ⟨fun _ => .response 200, fun _ => 0, fun _ => 0⟩)
        ([.tick] ++ .cancel :: [.tick, .tick]) []) t.Name).isSome = true) :=
  Run_cancel_stops_cleanly [⟨"a", "u"⟩]
    (fun _ => ⟨fun _ => .response 200, fun _ => 0, fun _ => 0⟩)
    [.tick] [.tick, .tick] [] (by decide)

/-! ### Write-through to the persistent mirror -/

/-- The persistent mirror's collection: target name to serialized JSON. -/
def Cache := List (String × String)

/-- Embeds the redis variant's `storeResult`: serialize the result (the
JSON encoder is the oracle `enc`); on serialization failure log and
return; otherwise `HSET`, whose failure (`hsetOk = false`) is logged and
swallowed.  The function is total and only ever returns a cache state. -/
def storeResult (enc : Result → Option String) (hsetOk : Bool)
    (cache : Cache) (name : String) (result : Result) : Cache :=
  match enc result with
  | none => cache
  | some data => if hsetOk then mapSet cache name data else cache

/-- A cycle environment extended with the mirror oracles: the JSON
encoder and the per-target success of the redis write. -/
structure MirrorEnv extends CycleEnv where
  enc : Result → Option String
  hsetOk : Target → Bool

/-- Embeds the redis variant's `checkAll`: per target, write the probe
result to the in-memory map, then write it through to the mirror. -/
def checkAllMirror (targets : List Target) (env : MirrorEnv)
    (store : Store) (cache : Cache) : Store × Cache :=
  targets.foldl
    (fun sc t =>
      (mapSet sc.1 t.Name (cycleResult env.toCycleEnv t),
       storeResult env.enc (env.hsetOk t) sc.2 t.Name
         (cycleResult env.toCycleEnv t)))
    (store, cache)

/-- C7: the in-memory store produced by a mirror-enabled cycle is exactly
the memory-only cycle's store, for every serialization/redis outcome — a
mirror failure never changes or aborts the in-memory update; and a failed
serialization or a failed redis write leaves the cache untouched (logged
and swallowed, never raised). -/
theorem storeResult_best_effort (targets : List Target) (env : MirrorEnv)
    (store : Store) (cache : Cache) :
    (checkAllMirror targets env store cache).1 =
      checkAll targets env.toCycleEnv store ∧
    (∀ (c : Cache) (name : String) (r : Result),
      storeResult env.enc false c name r = c) ∧
    (∀ (c : Cache) (name : String) (r : Result) (b : Bool),
      env.enc r = none → storeResult env.enc b c name r = c) := by
  refine ⟨?_, ?_, ?_⟩
  · induction targets generalizing store cache with
    | nil => rfl
    | cons t rest ih => exact ih _ _
  · intro c name r
    unfold storeResult
    cases env.enc r <;> simp
  · intro c name r b henc
    unfold storeResult
    rw [henc]

/-- C7 witness: a concrete cycle whose serialization always fails still
produces the memory-only store, and the failing write leaves the cache
unchanged. -/
theorem storeResult_best_effort_witness :
    (checkAllMirror [⟨"a", "u"⟩]
        ⟨⟨fun _ => .response 200, fun _ => 0, fun _ => 0⟩, fun _ => none, fun _ => true⟩
        [] []).1 =
      checkAll [⟨"a", "u"⟩] ⟨fun _ => .response 200, fun _ => 0, fun _ => 0⟩ [] ∧
    storeResult (fun _ => none) true []
        "a" (check ⟨"a", "u"⟩ (.response 200) 0 0) = [] := by
  have hmain := storeResult_best_effort [⟨"a", "u"⟩]
    ⟨⟨fun _ => .response 200, fun _ => 0, fun _ => 0⟩, fun _ => none, fun _ => true⟩
    [] []
  exact ⟨hmain.1, hmain.2.2 [] "a" (check ⟨"a", "u"⟩ (.response 200) 0 0) true rfl⟩

/-! ### The mirror-preferring read path (`Results`, redis variant) -/

/-- Oracle for `HGETALL` on the collection key: either an error or the
fetched field/value pairs (a Go map, so keys are unique). -/
inductive FetchOutcome where
  | err (msg : String)
  | ok (vals : List (String × String))

/-- The loop body of the mirror read path: deserialize each entry (the
JSON decoder is the oracle `dec`); entries that fail to decode are
skipped. -/
def decodeStep (dec : String → Option Result) (out : Store)
    (p : String × String) : Store :=
  match dec p.2 with
  | some r => mapSet out p.1 r
  | none => out

/-- Builds the mapping returned on the mirror-preferred path. -/
def decodeCache (dec : String → Option Result)
    (vals : List (String × String)) : Store :=
  vals.foldl (decodeStep dec) []

/-- Embeds the redis variant's `(*Checker).Results`: fetch the collection;
if the fetch succeeded and is non-empty, return the decoded cache content,
otherwise return the in-memory snapshot. -/
def Results (fetch : FetchOutcome) (dec : String → Option Result)
    (memSnapshot : Store) : Store :=
  match fetch with
  | .ok vals => if vals.length > 0 then decodeCache dec vals else memSnapshot
  | .err _ => memSnapshot

/-- C4: a mirror read error or an empty fetched collection makes `Results`
return the in-memory snapshot, never an error; only a successful non-empty
fetch returns the mirror's (decoded) content. -/
theorem Results_fallback_on_error_or_empty (dec : String → Option Result)
    (memSnapshot : Store) :
    (∀ msg, Results (.err msg) dec memSnapshot = memSnapshot) ∧
    Results (.ok []) dec memSnapshot = memSnapshot ∧
    (∀ vals, vals ≠ [] →
      Results (.ok vals) dec memSnapshot = decodeCache dec vals) := by
  refine ⟨fun _ => rfl, rfl, ?_⟩
  intro vals hv
  simp only [Results, if_pos (List.length_pos.mpr hv)]

/-- C4 witness: a concrete fetch error and a concrete empty fetch both
return the snapshot; a non-empty fetch returns the decoded cache. -/
theorem Results_fallback_on_error_or_empty_witness :
    Results (.err "connection refused") (fun _ => none)
        [("a", check ⟨"a", "u"⟩ (.response 200) 0 0)] =
      [("a", check ⟨"a", "u"⟩ (.response 200) 0 0)] ∧
    Results (.ok [("a", "data")]) (fun _ => none) [] =
      decodeCache (fun _ => none) [("a", "data")] :=
  ⟨(Results_fallback_on_error_or_empty (fun _ => none)
      [("a", check ⟨"a", "u"⟩ (.response 200) 0 0)]).1 "connection refused",
   (Results_fallback_on_error_or_empty (fun _ => none) []).2.2
      [("a", "data")] (by simp)⟩

theorem isSome_mapGet_foldl_decodeStep (dec : String → Option Result)
    (vals : List (String × String)) (acc : Store) (k : String) :
    (mapGet (vals.foldl (decodeStep dec) acc) k).isSome = true ↔
      (mapGet acc k).isSome = true ∨
        ∃ p ∈ vals, p.1 = k ∧ (dec p.2).isSome = true := by
  induction vals generalizing acc with
  | nil => simp
  | cons p vals2 ih =>
      rw [List.foldl_cons, ih]
      constructor
      · rintro (h | ⟨q, hq, hqk, hqdec⟩)
        · unfold decodeStep at h
          rcases hdec : dec p.2 with _ | r
          · rw [hdec] at h
            exact Or.inl h
          · rw [hdec] at h
            rcases (isSome_mapGet_mapSet acc p.1 k r).mp h with h1 | h1
            · exact Or.inr ⟨p, List.mem_cons_self p vals2, h1, by rw [hdec]; rfl⟩
            · exact Or.inl h1
        · exact Or.inr ⟨q, List.mem_cons_of_mem p hq, hqk, hqdec⟩
      · rintro (h | ⟨q, hq, hqk, hqdec⟩)
        · refine Or.inl ?_
          unfold decodeStep
          rcases hdec : dec p.2 with _ | r
          · exact h
          · exact (isSome_mapGet_mapSet acc p.1 k r).mpr (Or.inr h)
        · rcases List.mem_cons.mp hq with h1 | h1
          · subst h1
            refine Or.inl ?_
            unfold decodeStep
            rcases hdec : dec q.2 with _ | r
            · rw [hdec] at hqdec
              exact absurd hqdec (by simp)
            · exact (isSome_mapGet_mapSet acc q.1 k r).mpr (Or.inl hqk)
          · exact Or.inr ⟨q, h1, hqk, hqdec⟩

/-- C10: on the mirror-preferred path (successful non-empty fetch), the
returned mapping's keys are exactly the fetched entries whose serialized
value decodes — undecodable entries are silently dropped — and the
membership condition never consults the configured target list (the
definition takes none). -/
theorem Results_mirror_keys_parseable (dec : String → Option Result)
    (vals : List (String × String)) (memSnapshot : Store) (k : String)
    (hv : vals ≠ []) :
    (mapGet (Results (.ok vals) dec memSnapshot) k).isSome = true ↔
      ∃ p ∈ vals, p.1 = k ∧ (dec p.2).isSome = true := by
  simp only [Results, if_pos (List.length_pos.mpr hv)]
  unfold decodeCache
  rw [isSome_mapGet_foldl_decodeStep]
  simp [mapGet]

/-- C10 witness: a cache with one decodable and one undecodable entry and
a key absent from any configuration: the decodable key is present, the
undecodable one dropped. -/
theorem Results_mirror_keys_parseable_witness :
    (mapGet (Results
        (.ok [("ghost", "good"), ("b", "bad")])
        (fun s => if s = "good" then some (check ⟨"ghost", "u"⟩ (.response 200) 0 0) else none)
        []) "ghost").isSome = true ∧
    ¬ (mapGet (Results
        (.ok [("ghost", "good"), ("b", "bad")])
        (fun s => if s = "good" then some (check ⟨"ghost", "u"⟩ (.response 200) 0 0) else none)
        []) "b").isSome = true := by
  constructor
  · exact (Results_mirror_keys_parseable
      (fun s => if s = "good" then some (check ⟨"ghost", "u"⟩ (.response 200) 0 0) else none)
      [("ghost", "good"), ("b", "bad")] [] "ghost" (by simp)).mpr
      ⟨("ghost", "good"), by simp, rfl, by simp⟩
  · intro hmem
    rcases (Results_mirror_keys_parseable
      (fun s => if s = "good" then some (check ⟨"ghost", "u"⟩ (.response 200) 0 0) else none)
      [("ghost", "good"), ("b", "bad")] [] "b" (by simp)).mp hmem with ⟨p, hp, hpk, hpdec⟩
    rcases List.mem_cons.mp hp with h1 | h1
    · subst h1
      exact absurd hpk (by simp)
    · simp only [List.mem_singleton] at h1
      subst h1
      simp at hpdec

/-! ### Cycle timing

`Run` creates the ticker after the initial cycle completes and then
blocks in `checkAll` on every tick it receives: a `time.Ticker` fires at
wall-clock multiples of the interval from its creation, its channel
buffers at most one tick, and further ticks are dropped while the buffer
is full.  `runSchedule` computes the `(start, end)` span of each cycle
from the interval and the cycles' durations: relative clock 0 is ticker
creation, i.e. the completion of the initial cycle. -/

/-- The wall-clock time of the first ticker fire strictly after `tnow`
(ticks fire at positive multiples of the interval). -/
def nextTickAfter (interval tnow : Nat) : Nat :=
  interval * (tnow / interval + 1)

/-- When the loop comes back to its `select` at time `tnow`: with a
buffered tick it proceeds at once, otherwise it blocks until the next
fire. -/
def schedStart (interval tnow : Nat) (buffered : Bool) : Nat :=
  if buffered then tnow else nextTickAfter interval tnow

/-- Spans of the ticked cycles, on the clock whose 0 is ticker creation.
After a cycle ends, the buffer holds a tick exactly when some tick fired
during the cycle (at most one is kept, the rest are dropped). -/
def schedAux (interval : Nat) : Nat → Bool → List Nat → List (Nat × Nat)
  | _, _, [] => []
  | tnow, buffered, d :: ds =>
      (schedStart interval tnow buffered, schedStart interval tnow buffered + d) ::
        schedAux interval (schedStart interval tnow buffered + d)
          (decide (schedStart interval tnow buffered / interval <
            (schedStart interval tnow buffered + d) / interval)) ds

/-- Embeds the timing of `(*Checker).Run`: the initial cycle spans
`(0, d)`, the ticker is created at its completion, and each later cycle is
run synchronously from the loop. -/
def runSchedule (interval : Nat) : List Nat → List (Nat × Nat)
  | [] => []
  | d :: ds =>
      (0, d) :: (schedAux interval 0 false ds).map (fun p => (p.1 + d, p.2 + d))

theorem lt_nextTickAfter (interval tnow : Nat) (h : 0 < interval) :
    tnow < nextTickAfter interval tnow := by
  unfold nextTickAfter
  calc tnow = interval * (tnow / interval) + tnow % interval :=
        (Nat.div_add_mod tnow interval).symm
    _ < interval * (tnow / interval) + interval :=
        Nat.add_lt_add_left (Nat.mod_lt tnow h) _
    _ = interval * (tnow / interval + 1) := (Nat.mul_succ interval _).symm

theorem le_schedStart (interval tnow : Nat) (buffered : Bool)
    (h : 0 < interval) : tnow ≤ schedStart interval tnow buffered := by
  cases buffered with
  | false =>
      exact le_of_lt (by simpa [schedStart] using lt_nextTickAfter interval tnow h)
  | true => simp [schedStart]

theorem schedAux_start_le (interval : Nat) (h : 0 < interval) :
    ∀ (ds : List Nat) (tnow : Nat) (buffered : Bool),
      ∀ p ∈ schedAux interval tnow buffered ds, tnow ≤ p.1 := by
  intro ds
  induction ds with
  | nil =>
      intro tnow b p hp
      simp [schedAux] at hp
  | cons d ds2 ih =>
      intro tnow b p hp
      rw [schedAux] at hp
      rcases List.mem_cons.mp hp with h1 | h1
      · rw [h1]
        exact le_schedStart interval tnow b h
      · calc tnow ≤ schedStart interval tnow b := le_schedStart interval tnow b h
          _ ≤ schedStart interval tnow b + d := Nat.le_add_right _ _
          _ ≤ p.1 := ih _ _ p h1

theorem schedAux_chain (interval : Nat) (h : 0 < interval) :
    ∀ (ds : List Nat) (tnow : Nat) (buffered : Bool),
      (schedAux interval tnow buffered ds).Chain' (fun a b => a.2 ≤ b.1) := by
  intro ds
  induction ds with
  | nil =>
      intro tnow b
      simp [schedAux]
  | cons d ds2 ih =>
      intro tnow b
      rw [schedAux]
      apply List.chain'_cons'.mpr
      refine ⟨?_, ih _ _⟩
      intro q hq
      exact schedAux_start_le interval h ds2 _ _ q (List.mem_of_mem_head? hq)

/-- C5 (amended): cycles are sequential, never overlapping — each cycle of
the schedule begins at or after the completion of the cycle before it,
because the loop calls `checkAll` synchronously. -/
theorem runSchedule_cycles_sequential (interval : Nat) (ds : List Nat)
    (h : 0 < interval) :
    (runSchedule interval ds).Chain' (fun a b => a.2 ≤ b.1) := by
  cases ds with
  | nil => simp [runSchedule]
  | cons d ds2 =>
      rw [runSchedule]
      apply List.chain'_cons'.mpr
      constructor
      · intro q hq
        rw [List.head?_map, Option.mem_def] at hq
        rcases Option.map_eq_some'.mp hq with ⟨p, hp, rfl⟩
        exact Nat.le_add_left d p.1
      · rw [List.chain'_map]
        exact (schedAux_chain interval h ds2 0 false).imp
          (fun a b hab => Nat.add_le_add_right hab d)

/-- C5 counterexample: interval 1, cycle durations 1, 5, 1.  While the
second cycle runs over the span `(2, 7)`, ticks fire at times 3, 4, 5 and
6; the claimed behavior would begin a new overlapping cycle at one of
them, but the loop is blocked inside `checkAll` until time 7, so the
third cycle spans `(7, 8)`: it begins exactly at the second cycle's
completion, never while it is still running. -/
theorem runSchedule_no_overlap_example :
    runSchedule 1 [1, 5, 1] = [(0, 1), (2, 7), (7, 8)] := by decide

/-- C5 witness: the amended no-overlap property at the counterexample's
input. -/
theorem runSchedule_cycles_sequential_witness :
    (runSchedule 1 [1, 5, 1]).Chain' (fun a b => a.2 ≤ b.1) :=
  runSchedule_cycles_sequential 1 [1, 5, 1] (by decide)

end Kenko
